import Mathlib

/-!
A shallow embedding of the template-metaprogramming Turing machine from
`turing-machine.cpp`.  Compile-time types become ordinary Lean values:

* `stack<Head, Tail>` / `nil` become the inductive `Stack`; in the source
  `nil` is a usable cell whose `top` is the empty symbol and whose `tail`
  is again `nil`, giving an infinite supply of blanks.
* `tape<Left, Head, Right>` becomes the structure `Tape`.
* Turing-machine states are types carrying a `static constexpr bool final`;
  here they are values of `TMState`, where distinct declarations get
  distinct `id`s (type identity in `std::is_same` becomes value equality).
* `instruction<...>` becomes the structure `Instruction`, a `program<...>`
  a `List Instruction`.
* The unbounded template recursion of `run` becomes the fuel-indexed
  `run_fuel`: `run_fuel P f m = some r` says the run from `m` halts with
  result `r` within `f` steps, and `= none` that it is still running
  after `f` steps.
-/

set_option maxRecDepth 10000

namespace TMSpec

/-- The special empty symbol: `constexpr char empty = '#'`. -/
def empty : Char := '#'

/-- Match any symbol, or (as a write symbol) do not change the current
symbol: `constexpr char wildcard = '?'`. -/
def wildcard : Char := '?'

/-- One half of the tape: `stack<Head, Tail>` cons cells terminated by
`nil`. -/
inductive Stack where
  | nil : Stack
  | cons (top : Char) (tail : Stack) : Stack
deriving DecidableEq, Repr

/-- Source `top`: the head member of a `stack`; `nil::top` is the empty symbol. -/
def Stack.top : Stack → Char
  | .nil => empty
  | .cons c _ => c

/-- Source `tail`: the tail member of a `stack`; `nil::tail` is `nil` again. -/
def Stack.tail : Stack → Stack
  | .nil => .nil
  | .cons _ s => s

/-- Source `push<New, Stack>`. -/
def push (c : Char) (s : Stack) : Stack := .cons c s

/-- Source `pop<Stack>`. -/
def pop (s : Stack) : Stack := s.tail

/-- Source `tape<Left, Head, Right>`: two stacks and the symbol under the head. -/
structure Tape where
  left : Stack
  head : Char
  right : Stack
deriving DecidableEq, Repr

/-- Source `move_left<Tape>`. -/
def move_left (t : Tape) : Tape :=
  ⟨pop t.left, t.left.top, push t.head t.right⟩

/-- Source `move_right<Tape>`. -/
def move_right (t : Tape) : Tape :=
  ⟨push t.head t.left, t.right.top, pop t.right⟩

/-- Source `detail::stackify<char...>`: a character pack as a stack. -/
def stackify : List Char → Stack
  | [] => .nil
  | c :: cs => .cons c (stackify cs)

/-- Source `make_tape<char...>`: first symbol under the head, the rest to the
right, empty pack giving a single literal `'#'` cell. -/
def make_tape : List Char → Tape
  | [] => ⟨.nil, '#', .nil⟩
  | c :: cs => ⟨.nil, c, stackify cs⟩

/-- Source `move_tape<Dir, Tape>`: the source defines instantiations exactly for
`'L'`, `'R'` and `'0'` (the `'0'` one leaves the tape unchanged); any other
direction character does not compile there, so the fall-through branch is
never exercised by a program the source accepts and we let it leave the
tape unchanged as well. -/
def move_tape (d : Char) (t : Tape) : Tape :=
  if d = 'L' then move_left t
  else if d = 'R' then move_right t
  else t

/-- Source `write_tape<Tape, C>`: put `C` under the head; the specialization for
`wildcard` leaves the tape unchanged. -/
def write_tape (t : Tape) (c : Char) : Tape :=
  if c = wildcard then t else ⟨t.left, c, t.right⟩

/-- A Turing-machine state: the source declares each state as its own type
with a `static constexpr bool final`; distinct declarations get distinct
`id`s here. -/
structure TMState where
  id : Nat
  final : Bool
deriving DecidableEq, Repr

/-- Source `instruction<FromState, HeadRead, ToState, HeadWrite, Movement>`. -/
structure Instruction where
  from_state : TMState
  head_read : Char
  to_state : TMState
  head_write : Char
  movement : Char
deriving DecidableEq, Repr

/-- The two members of `execute_instruction<Instruction, Tape>`. -/
structure ExecResult where
  state : TMState
  tape : Tape
deriving DecidableEq, Repr

/-- Source `execute_instruction`: the new state is the instruction's `to_state`;
the new tape is the old one written to and then moved. -/
def execute_instruction (i : Instruction) (t : Tape) : ExecResult :=
  { state := i.to_state
    tape := move_tape i.movement (write_tape t i.head_write) }

/-- Source `detail::match_helper<State, Head, Instructions...>::match`: the first
instruction whose `from_state` is the current state and whose `head_read`
is the current head symbol or the wildcard; `none` plays the role of the
`fail` type. -/
def match_helper (s : TMState) (c : Char) : List Instruction → Option Instruction
  | [] => none
  | first :: rest =>
    if s = first.from_state ∧ (c = first.head_read ∨ first.head_read = wildcard)
    then some first
    else match_helper s c rest

/-- Source `machine<State, Tape, Program>`; the program component is carried
unchanged through a run, so it is a separate argument below. -/
structure Machine where
  state : TMState
  tape : Tape
deriving DecidableEq, Repr

/-- Source `cont<Machine, NextInstruction>::value`: keep going iff the state is
not final and the lookup did not fail. -/
def cont (m : Machine) (next : Option Instruction) : Bool :=
  !m.state.final && next.isSome

/-- One iteration of `run`: `none` when `cont` is false (the machine has
halted — `run_helper<..., false>` returns the machine itself), otherwise
the successor machine built by `run_helper<..., true>` from
`execute_instruction`. -/
def step (P : List Instruction) (m : Machine) : Option Machine :=
  match match_helper m.state m.tape.head P, m.state.final with
  | none, _ => none
  | some _, true => none
  | some i, false =>
    some ⟨(execute_instruction i m.tape).state, (execute_instruction i m.tape).tape⟩

/-- Source `run<Machine>::result`, indexed by fuel: `some r` when the machine
halts with final configuration `r` within `f` iterations, `none` when
`cont` still holds after `f` iterations. -/
def run_fuel (P : List Instruction) : Nat → Machine → Option Machine
  | f, m =>
    match step P m, f with
    | none, _ => some m
    | some _, 0 => none
    | some m2, f + 1 => run_fuel P f m2

/-- Iterate `step` at most `n` times, stopping at a halted configuration:
the chain of machines `run` builds, cut off after `n` links. -/
def steps (P : List Instruction) : Nat → Machine → Machine
  | 0, m => m
  | n + 1, m =>
    match step P m with
    | none => m
    | some m2 => steps P n m2

/-- The symbol a stack holds at depth `n`; past the materialized cells this
is the empty symbol, exactly as reading `nil` repeatedly yields `'#'`. -/
def stack_nth : Stack → Nat → Char
  | .nil, _ => empty
  | .cons c _, 0 => c
  | .cons _ s, n + 1 => stack_nth s n

/-- Content equality of tapes: same head symbol and cell-for-cell equal
halves, with unmaterialized cells reading as blank. -/
def tape_equiv (t u : Tape) : Prop :=
  t.head = u.head ∧ (∀ n, stack_nth t.left n = stack_nth u.left n) ∧
    ∀ n, stack_nth t.right n = stack_nth u.right n

/-- The materialized cells of a stack, top first. -/
def stack_chars : Stack → List Char
  | .nil => []
  | .cons c s => c :: stack_chars s

/-- The materialized window of a tape in left-to-right order, as
`print_tape` walks it: left half reversed, head, right half. -/
def tape_chars (t : Tape) : List Char :=
  (stack_chars t.left).reverse ++ t.head :: stack_chars t.right

/-- No materialized cell of the stack holds the wildcard character. -/
def stack_no_wild : Stack → Bool
  | .nil => true
  | .cons c s => (c != wildcard) && stack_no_wild s

/-- No cell of the tape holds the wildcard character. -/
def tape_no_wild (t : Tape) : Bool :=
  stack_no_wild t.left && (t.head != wildcard) && stack_no_wild t.right

/-- The matching condition of `match_helper` on a single instruction. -/
def matches_inst (s : TMState) (c : Char) (i : Instruction) : Prop :=
  s = i.from_state ∧ (c = i.head_read ∨ i.head_read = wildcard)

instance (s : TMState) (c : Char) (i : Instruction) :
    Decidable (matches_inst s c i) := by
  unfold matches_inst; infer_instance

/-! States and program of the input-reversal demo machine of `main`. -/

def put_right_marker : TMState := ⟨0, false⟩
def rewind : TMState := ⟨1, false⟩
def go_right_a : TMState := ⟨2, false⟩
def go_right_b : TMState := ⟨3, false⟩
def go_left_a : TMState := ⟨4, false⟩
def go_left_b : TMState := ⟨5, false⟩
def take_left : TMState := ⟨6, false⟩
def take_right : TMState := ⟨7, false⟩
def clear : TMState := ⟨8, false⟩
def clear_a : TMState := ⟨9, false⟩
def clear_b : TMState := ⟨10, false⟩
def clear_last : TMState := ⟨11, false⟩
def end_state : TMState := ⟨12, true⟩

/-- The demo `reverse_prog`, instruction for instruction. -/
def reverse_prog : List Instruction := [
  ⟨put_right_marker, '#', rewind, '|', 'L'⟩,
  ⟨put_right_marker, '?', put_right_marker, '?', 'R'⟩,
  ⟨rewind, '#', take_left, '#', 'R'⟩,
  ⟨rewind, '?', rewind, '?', 'L'⟩,
  ⟨take_left, 'a', go_right_a, '|', 'R'⟩,
  ⟨take_left, 'b', go_right_b, '|', 'R'⟩,
  ⟨take_left, '|', clear, '|', 'R'⟩,
  ⟨go_right_a, '|', take_right, 'a', 'L'⟩,
  ⟨go_right_b, '|', take_right, 'b', 'L'⟩,
  ⟨go_right_a, '?', go_right_a, '?', 'R'⟩,
  ⟨go_right_b, '?', go_right_b, '?', 'R'⟩,
  ⟨take_right, 'a', go_left_a, '|', 'L'⟩,
  ⟨take_right, 'b', go_left_b, '|', 'L'⟩,
  ⟨take_right, '|', clear, '|', 'R'⟩,
  ⟨go_left_a, '|', take_left, 'a', 'R'⟩,
  ⟨go_left_b, '|', take_left, 'b', 'R'⟩,
  ⟨go_left_a, '?', go_left_a, '?', 'L'⟩,
  ⟨go_left_b, '?', go_left_b, '?', 'L'⟩,
  ⟨clear, 'a', clear_a, '|', 'L'⟩,
  ⟨clear, 'b', clear_b, '|', 'L'⟩,
  ⟨clear, '|', clear, '|', 'R'⟩,
  ⟨clear, '#', clear_last, '#', 'L'⟩,
  ⟨clear_a, '|', clear, 'a', 'R'⟩,
  ⟨clear_b, '|', clear, 'b', 'R'⟩,
  ⟨clear_last, '|', end_state, '#', '0'⟩]

/-- The demo `reverse_tape1`: the tape holding `abaabba`. -/
def reverse_tape1 : Tape := make_tape ['a', 'b', 'a', 'a', 'b', 'b', 'a']

/-! A one-instruction looping machine: `(S, '#', S, '#', Stay)` with `S`
not final, as in the divergence example. -/

def loop_state : TMState := ⟨0, false⟩

def loop_prog : List Instruction := [⟨loop_state, '#', loop_state, '#', '0'⟩]


/-! Theorems about the embedded machine. -/

/-- C1: from a final state the run halts at once as `Accepted`, with the
state and the tape unchanged, for every program `P` and every fuel bound
(in particular fuel `0` already suffices, so no instruction is consulted
and the result does not depend on `P`). -/
theorem final_state_halts_accepted (P : List Instruction) (f : Nat) (s : TMState)
    (T : Tape) (hs : s.final = true) :
    run_fuel P f ⟨s, T⟩ = some ⟨s, T⟩ := by
  have hstep : step P ⟨s, T⟩ = none := by
    cases h : match_helper s T.head P <;> simp [step, h, hs]
  exact run_fuel.eq_1 P ⟨s, T⟩ f hstep

theorem final_state_halts_accepted_witness :
    end_state.final = true ∧
      run_fuel reverse_prog 0 ⟨end_state, make_tape []⟩ =
        some ⟨end_state, make_tape []⟩ :=
  ⟨rfl, final_state_halts_accepted reverse_prog 0 end_state (make_tape []) rfl⟩

/-- C3: in a non-final state with no matching instruction the run halts as
`Stuck`: the result carries exactly the state and tape from before the
failed lookup, and that state is not final. -/
theorem no_match_halts_stuck (P : List Instruction) (f : Nat) (s : TMState)
    (T : Tape) (hs : s.final = false) (hm : match_helper s T.head P = none) :
    run_fuel P f ⟨s, T⟩ = some ⟨s, T⟩ ∧
      (Machine.mk s T).state.final = false := by
  refine ⟨?_, hs⟩
  have hstep : step P ⟨s, T⟩ = none := by simp [step, hm]
  exact run_fuel.eq_1 P ⟨s, T⟩ f hstep

theorem no_match_halts_stuck_witness :
    run_fuel loop_prog 5 ⟨loop_state, make_tape ['a']⟩ =
        some ⟨loop_state, make_tape ['a']⟩ ∧
      (Machine.mk loop_state (make_tape ['a'])).state.final = false :=
  no_match_halts_stuck loop_prog 5 loop_state (make_tape ['a']) rfl (by decide)

/-- C4: when the lookup in a non-final state yields an instruction `i`,
one engine step writes `i`'s write symbol first, then moves the head per
`i`'s movement, then adopts `i`'s target state, and the run continues
from that configuration. -/
theorem step_applies_instruction (P : List Instruction) (f : Nat) (s : TMState)
    (T : Tape) (i : Instruction) (hs : s.final = false)
    (hm : match_helper s T.head P = some i) :
    run_fuel P (f + 1) ⟨s, T⟩ =
      run_fuel P f
        ⟨i.to_state, move_tape i.movement (write_tape T i.head_write)⟩ := by
  have hstep : step P ⟨s, T⟩ =
      some ⟨i.to_state, move_tape i.movement (write_tape T i.head_write)⟩ := by
    simp [step, hm, hs, execute_instruction]
  exact run_fuel.eq_3 P ⟨s, T⟩ _ f hstep

def w4_from : TMState := ⟨21, false⟩
def w4_to : TMState := ⟨22, false⟩
def w4_inst : Instruction := ⟨w4_from, 'a', w4_to, 'b', 'R'⟩

theorem step_applies_instruction_witness :
    run_fuel [w4_inst] 1 ⟨w4_from, make_tape ['a']⟩ =
      run_fuel [w4_inst] 0
        ⟨w4_inst.to_state,
          move_tape w4_inst.movement
            (write_tape (make_tape ['a']) w4_inst.head_write)⟩ :=
  step_applies_instruction [w4_inst] 0 w4_from (make_tape ['a']) w4_inst rfl
    (by decide)

/-- C5: writing the no-write sentinel (the wildcard) leaves the whole tape,
so in particular the head symbol, unchanged; writing any other symbol `c`
replaces the head symbol by `c` and touches nothing else. -/
theorem write_tape_spec (T : Tape) (c : Char) :
    write_tape T wildcard = T ∧
      (c ≠ wildcard → write_tape T c = ⟨T.left, c, T.right⟩) := by
  constructor
  · simp [write_tape]
  · intro hc
    simp [write_tape, hc]

theorem write_tape_spec_witness :
    write_tape (make_tape ['a']) 'b' =
      ⟨(make_tape ['a']).left, 'b', (make_tape ['a']).right⟩ :=
  (write_tape_spec (make_tape ['a']) 'b').2 (by decide)


/-- C2: `match_helper` returns the first instruction in declaration order
whose `from_state` is the queried state and whose `head_read` is the
queried symbol or the wildcard, and `none` exactly when no instruction
qualifies; wildcard read-rules hence match every symbol for their state,
and an earlier-declared matching rule beats every later one. -/
theorem match_helper_first_match (s : TMState) (c : Char) (l : List Instruction) :
    (match_helper s c l = none ↔ ∀ i ∈ l, ¬ matches_inst s c i) ∧
      ∀ i, match_helper s c l = some i →
        matches_inst s c i ∧
          ∃ l₁ l₂, l = l₁ ++ i :: l₂ ∧ ∀ j ∈ l₁, ¬ matches_inst s c j := by
  induction l with
  | nil =>
    refine ⟨by simp [match_helper], ?_⟩
    intro i hi
    simp [match_helper] at hi
  | cons first rest ih =>
    by_cases hm : matches_inst s c first
    · have he : match_helper s c (first :: rest) = some first := by
        rw [match_helper.eq_2, if_pos]
        exact hm
      refine ⟨?_, ?_⟩
      · rw [he]
        constructor
        · intro hc
          simp at hc
        · intro hall
          exact absurd hm (hall first (List.mem_cons_self first rest))
      · intro i hi
        rw [he, Option.some_inj] at hi
        subst hi
        exact ⟨hm, [], rest, rfl, by simp⟩
    · have he : match_helper s c (first :: rest) = match_helper s c rest := by
        rw [match_helper.eq_2, if_neg]
        exact hm
      obtain ⟨ih1, ih2⟩ := ih
      refine ⟨?_, ?_⟩
      · rw [he, ih1]
        constructor
        · intro hall i hi
          rcases List.mem_cons.mp hi with rfl | hi2
          · exact hm
          · exact hall i hi2
        · intro hall i hi
          exact hall i (List.mem_cons_of_mem _ hi)
      · intro i hi
        rw [he] at hi
        obtain ⟨him, l₁, l₂, hl, hnone⟩ := ih2 i hi
        refine ⟨him, first :: l₁, l₂, by rw [hl]; rfl, ?_⟩
        intro j hj
        rcases List.mem_cons.mp hj with rfl | hj2
        · exact hm
        · exact hnone j hj2

def w2_inst1 : Instruction := ⟨⟨31, false⟩, '?', ⟨31, false⟩, '?', 'R'⟩
def w2_inst2 : Instruction := ⟨⟨31, false⟩, 'a', ⟨32, false⟩, 'b', 'L'⟩

theorem match_helper_first_match_witness :
    matches_inst ⟨31, false⟩ 'a' w2_inst1 ∧
      ∃ l₁ l₂, [w2_inst1, w2_inst2] = l₁ ++ w2_inst1 :: l₂ ∧
        ∀ j ∈ l₁, ¬ matches_inst ⟨31, false⟩ 'a' j :=
  (match_helper_first_match ⟨31, false⟩ 'a' [w2_inst1, w2_inst2]).2 w2_inst1
    (by decide)

/-- Helper: reading an explicit cons of a stack's top onto its tail gives
the same symbols, cell for cell, as reading the stack itself. -/
lemma stack_nth_cons_top_tail (s : Stack) (n : Nat) :
    stack_nth (.cons s.top s.tail) n = stack_nth s n := by
  cases s <;> cases n <;> simp [stack_nth, Stack.top, Stack.tail]

/-- C6: moving left then right, or right then left, restores the original
head symbol and a content-equal tape, unmaterialized cells reading as
blank (the representation may gain one materialized blank cell, so this
is content equality, not identity). -/
theorem move_round_trip (t : Tape) :
    tape_equiv (move_right (move_left t)) t ∧
      tape_equiv (move_left (move_right t)) t := by
  obtain ⟨L, c, R⟩ := t
  constructor
  · exact ⟨rfl, fun n => stack_nth_cons_top_tail L n, fun n => rfl⟩
  · exact ⟨rfl, fun n => rfl, fun n => stack_nth_cons_top_tail R n⟩

/-- Helper: reading the stackified list at depth `i` gives the list entry
there, and blank past the end. -/
lemma stack_nth_stackify (cs : List Char) (i : Nat) :
    stack_nth (stackify cs) i = cs.getD i '#' := by
  induction cs generalizing i with
  | nil => cases i <;> simp [stackify, stack_nth, empty]
  | cons c cs ih =>
    cases i with
    | zero => simp [stackify, stack_nth]
    | succ i => simpa [stackify, stack_nth] using ih i

/-- Helper: the materialized cells of a stackified list are that list. -/
lemma stack_chars_stackify (cs : List Char) :
    stack_chars (stackify cs) = cs := by
  induction cs with
  | nil => rfl
  | cons c cs ih => simp [stackify, stack_chars, ih]

/-- C7: a tape built from a non-empty symbol list has the first symbol
under the head, nothing materialized to the left, and exactly the
remaining symbols materialized to the right in order (reading blank past
them); the empty list gives a single materialized blank head cell with
nothing on either side. -/
theorem make_tape_spec (c : Char) (cs : List Char) :
    (make_tape (c :: cs)).head = c ∧
      (make_tape (c :: cs)).left = Stack.nil ∧
      stack_chars (make_tape (c :: cs)).right = cs ∧
      (∀ i, stack_nth (make_tape (c :: cs)).right i = cs.getD i '#') ∧
      (make_tape []).head = '#' ∧
      (make_tape []).left = Stack.nil ∧
      (make_tape []).right = Stack.nil :=
  ⟨rfl, rfl, stack_chars_stackify cs, fun i => stack_nth_stackify cs i,
    rfl, rfl, rfl⟩

/-- C8: the reversal machine, started in `put_right_marker` on the tape
holding `abaabba`, halts accepted — within 100 steps, in the final state —
and the non-blank cells of the final tape spell `abbaaba`. -/
theorem reverse_demo_accepts :
    ∃ r, run_fuel reverse_prog 100 ⟨put_right_marker, reverse_tape1⟩ = some r ∧
      r.state.final = true ∧
      (tape_chars r.tape).filter (fun x => x != '#') =
        ['a', 'b', 'b', 'a', 'a', 'b', 'a'] := by
  refine ⟨⟨end_state,
    ⟨stackify ['a', 'b', 'a', 'a', 'b', 'b', 'a', '#'], '#', stackify ['#']⟩⟩,
    ?_, rfl, ?_⟩
  · decide
  · decide

/-- C9: the one-instruction program `(S, '#', S, '#', Stay)` with `S` not
final, started on a blank tape, never halts: the engine step maps the
starting configuration to itself, and the run yields no result under any
fuel bound, so no halted configuration is ever reached. -/
theorem loop_never_halts :
    (∀ n, run_fuel loop_prog n ⟨loop_state, make_tape []⟩ = none) ∧
      step loop_prog ⟨loop_state, make_tape []⟩ =
        some ⟨loop_state, make_tape []⟩ := by
  have hstep : step loop_prog ⟨loop_state, make_tape []⟩ =
      some ⟨loop_state, make_tape []⟩ := by decide
  refine ⟨?_, hstep⟩
  intro n
  induction n with
  | zero => exact run_fuel.eq_2 loop_prog _ _ hstep
  | succ n ih => rw [run_fuel.eq_3 loop_prog _ _ n hstep, ih]

/-- Helper: a wildcard-free stack has a wildcard-free top symbol (the top
of `nil` is the blank). -/
lemma stack_no_wild_top (s : Stack) (h : stack_no_wild s = true) :
    s.top ≠ wildcard := by
  cases s with
  | nil => decide
  | cons c s =>
    simp [stack_no_wild] at h
    simpa [Stack.top] using h.1

/-- Helper: the tail of a wildcard-free stack is wildcard-free. -/
lemma stack_no_wild_tail (s : Stack) (h : stack_no_wild s = true) :
    stack_no_wild s.tail = true := by
  cases s with
  | nil => rfl
  | cons c s =>
    simp [stack_no_wild] at h
    simpa [Stack.tail, stack_no_wild] using h.2

/-- Helper: a tape is wildcard-free iff both halves and the head are. -/
lemma tape_no_wild_iff (t : Tape) :
    tape_no_wild t = true ↔
      stack_no_wild t.left = true ∧ t.head ≠ wildcard ∧
        stack_no_wild t.right = true := by
  simp [tape_no_wild, Bool.and_eq_true, bne_iff_ne, and_assoc]

/-- Helper: a cons cell is wildcard-free iff its head and tail are. -/
lemma stack_no_wild_cons (c : Char) (s : Stack) :
    stack_no_wild (.cons c s) = true ↔ c ≠ wildcard ∧ stack_no_wild s = true := by
  simp [stack_no_wild, Bool.and_eq_true, bne_iff_ne]

/-- Helper: writing keeps the tape wildcard-free for every written symbol:
writing the wildcard is a no-op, and any other written symbol is itself
not the wildcard. -/
lemma write_tape_no_wild (t : Tape) (c : Char) (h : tape_no_wild t = true) :
    tape_no_wild (write_tape t c) = true := by
  by_cases hc : c = wildcard
  · have he : write_tape t c = t := by simp [write_tape, hc]
    rw [he]
    exact h
  · have he : write_tape t c = ⟨t.left, c, t.right⟩ := by simp [write_tape, hc]
    rw [he, tape_no_wild_iff]
    rw [tape_no_wild_iff] at h
    exact ⟨h.1, hc, h.2.2⟩

/-- Helper: moving left keeps the tape wildcard-free; the cell the head
moves onto is the old left top, blank when freshly materialized. -/
lemma move_left_no_wild (t : Tape) (h : tape_no_wild t = true) :
    tape_no_wild (move_left t) = true := by
  rw [tape_no_wild_iff] at h
  rw [show move_left t = ⟨pop t.left, t.left.top, push t.head t.right⟩ from rfl,
    tape_no_wild_iff]
  exact ⟨stack_no_wild_tail _ h.1, stack_no_wild_top _ h.1,
    (stack_no_wild_cons _ _).mpr ⟨h.2.1, h.2.2⟩⟩

/-- Helper: moving right keeps the tape wildcard-free. -/
lemma move_right_no_wild (t : Tape) (h : tape_no_wild t = true) :
    tape_no_wild (move_right t) = true := by
  rw [tape_no_wild_iff] at h
  rw [show move_right t = ⟨push t.head t.left, t.right.top, pop t.right⟩ from rfl,
    tape_no_wild_iff]
  exact ⟨(stack_no_wild_cons _ _).mpr ⟨h.2.1, h.1⟩,
    stack_no_wild_top _ h.2.2, stack_no_wild_tail _ h.2.2⟩

/-- Helper: moving the head in any direction keeps the tape wildcard-free. -/
lemma move_tape_no_wild (d : Char) (t : Tape) (h : tape_no_wild t = true) :
    tape_no_wild (move_tape d t) = true := by
  unfold move_tape
  split
  · exact move_left_no_wild t h
  · split
    · exact move_right_no_wild t h
    · exact h

/-- Helper: one engine step keeps the tape wildcard-free. -/
lemma step_no_wild (P : List Instruction) (m m2 : Machine)
    (hs : step P m = some m2) (h : tape_no_wild m.tape = true) :
    tape_no_wild m2.tape = true := by
  rcases hmi : match_helper m.state m.tape.head P with _ | i
  · simp [step, hmi] at hs
  · cases hf : m.state.final with
    | true => simp [step, hmi, hf] at hs
    | false =>
      simp [step, hmi, hf, execute_instruction] at hs
      rw [← hs]
      exact move_tape_no_wild _ _ (write_tape_no_wild _ _ h)

/-- C10: a single character serves as both the wildcard and the no-write
sentinel, so no step can write a literal wildcard onto the tape: starting
from any tape without wildcard cells, under any program, the tape after
any number of engine steps still has no wildcard cell. -/
theorem no_wildcard_ever_written (P : List Instruction) (n : Nat) (m : Machine)
    (h : tape_no_wild m.tape = true) :
    tape_no_wild (steps P n m).tape = true := by
  induction n generalizing m with
  | zero => exact h
  | succ n ih =>
    rw [steps.eq_2]
    rcases hs : step P m with _ | m2
    · simpa using h
    · simpa using ih m2 (step_no_wild P m m2 hs h)

theorem no_wildcard_ever_written_witness :
    tape_no_wild (steps reverse_prog 5 ⟨put_right_marker, reverse_tape1⟩).tape
      = true :=
  no_wildcard_ever_written reverse_prog 5 ⟨put_right_marker, reverse_tape1⟩
    (by decide)

end TMSpec
